import Mathlib

/-!
# GoogleDriveModel (backend/modules/Paperheaver/googledrivemodel.cpp)

A shallow embedding of the tree-mirroring model `PageHeaver::GoogleDriveModel`.

* Heap objects created with `new FileTreeItem(...)` live in a list; a pointer is
  `Option Nat` (`none` is the null pointer, `some a` the object at position `a`).
* Member functions become functions on the model state returning `Except Fault _`:
  dereferencing a null pointer and a failed `assert` are faults.
* Qt signals are appended to `emitted`; the one signal with a slot inside the class
  (`accessTokenChanged` -> `handleAccessTokenChanged`, a direct connection) runs its slot
  synchronously.
* Requests handed to `conManager.get` are appended to `getRequests`.
-/

set_option autoImplicit false

namespace PageHeaver

/-! ## Qt JSON values -/

/-- QJsonValue: the value kinds of Qt's JSON API. Numbers are never read by the model, so the
payload of `double` is kept as an integer. -/
inductive QJsonValue where
  | null
  | bool (b : Bool)
  | double (d : Int)
  | string (s : String)
  | array (a : List QJsonValue)
  | object (o : List (String × QJsonValue))
  | undefined

/-- QJsonObject: the members of a JSON object. -/
abbrev QJsonObject := List (String × QJsonValue)

/-- QJsonArray: the elements of a JSON array. -/
abbrev QJsonArray := List QJsonValue

/-- QJsonObject::operator[](key): the member named `key`, or `undefined` when absent. -/
def QJsonObject.get : QJsonObject → String → QJsonValue
  | [], _ => .undefined
  | (k, v) :: rest, key => if k = key then v else QJsonObject.get rest key

/-- QJsonArray::operator[](i): the element at `i`, or `undefined` when out of range. -/
def QJsonArray.get : QJsonArray → Nat → QJsonValue
  | [], _ => .undefined
  | v :: _, 0 => v
  | _ :: rest, i + 1 => QJsonArray.get rest i

/-- QJsonValue::toString(): the string, or the empty string for any other kind. -/
def QJsonValue.toString : QJsonValue → String
  | .string s => s
  | _ => ""

/-- QJsonValue::toBool(): the boolean, or false for any other kind. -/
def QJsonValue.toBool : QJsonValue → Bool
  | .bool b => b
  | _ => false

/-- QJsonValue::isArray(). -/
def QJsonValue.isArray : QJsonValue → Bool
  | .array _ => true
  | _ => false

/-- QJsonValue::isObject() (also QJsonDocument::isObject() on a parsed document). -/
def QJsonValue.isObject : QJsonValue → Bool
  | .object _ => true
  | _ => false

/-- QJsonValue::toArray(): the array, or an empty array for any other kind. -/
def QJsonValue.toArray : QJsonValue → QJsonArray
  | .array a => a
  | _ => []

/-- QJsonValue::toObject(): the object, or an empty object for any other kind. -/
def QJsonValue.toObject : QJsonValue → QJsonObject
  | .object o => o
  | _ => []

mutual
/-- Nesting depth of a JSON value: the recursion depth `handleJsonObject` can reach on it. -/
def QJsonValue.depth : QJsonValue → Nat
  | .array a => depthArray a + 1
  | .object o => depthObject o + 1
  | _ => 0
/-- Largest nesting depth among the elements of an array. -/
def depthArray : List QJsonValue → Nat
  | [] => 0
  | v :: vs => max v.depth (depthArray vs)
/-- Largest nesting depth among the member values of an object. -/
def depthObject : List (String × QJsonValue) → Nat
  | [] => 0
  | (_, v) :: fs => max v.depth (depthObject fs)
end

/-- QString::contains(sub): `sub` occurs somewhere in `s`. -/
def QString.contains (s sub : String) : Bool :=
  s.data.tails.any (fun t => sub.data.isPrefixOf t)

/-! ## Faults, pointers, tree items -/

/-- The ways a member function can fail to complete. -/
inductive Fault where
  /-- a member access through a null `FileTreeItem *` -/
  | nullDereference
  /-- a member access through a pointer to no allocated object -/
  | danglingPointer
  /-- an `assert(...)` whose condition is false -/
  | assertionFailed
  /-- the recursion bound of the embedding ran out (never the outcome of `handleJsonObject`,
  see `handleJsonObject_ne_bound`) -/
  | recursionBound
deriving DecidableEq, Repr

deriving instance DecidableEq for Except

/-- A `FileTreeItem *`: null, or the address of an allocated item. -/
abbrev ItemPtr := Option Nat

/-- Modelled from the spec: class FileTreeItem (filetreeitem.h / filetreeitem.cpp are not part of
the source tree; only its uses in googledrivemodel.cpp are). A tree node holds its identifier,
title, MIME type, alternate link, the containing folder given to its constructor (null when the
two-argument constructor is used, as for "root") and its ordered child sequence. -/
structure FileTreeItem where
  id : String
  title : String
  mimeType : String
  alternateLink : String
  containingFolder : ItemPtr
  children : List ItemPtr
deriving DecidableEq, Repr

/-- QModelIndex as produced by `createIndex(row, column, ptr)`. -/
structure QModelIndex where
  row : Int
  column : Int
  internalPointer : ItemPtr
deriving DecidableEq, Repr

/-- The default-constructed (invalid) QModelIndex. -/
def QModelIndex.invalid : QModelIndex := ⟨-1, -1, none⟩

/-- QAbstractItemModel::createIndex. -/
def createIndex (row column : Int) (ptr : ItemPtr) : QModelIndex := ⟨row, column, ptr⟩

/-- The signals of the model that the embedded functions emit. -/
inductive Signal where
  | accessTokenChanged
  | refreshTokenChanged
  | credentialExpired
  | getNewAccessToken
  | rowsAboutToBeInserted (parent : QModelIndex) (first last : Int)
  | rowsInserted (parent : QModelIndex) (first last : Int)
deriving DecidableEq, Repr

/-- A request handed to the network access manager: URL parts, query items, raw headers. -/
structure QNetworkRequest where
  scheme : String
  host : String
  path : String
  query : List (String × String)
  rawHeaders : List (String × String)
deriving DecidableEq, Repr

/-- A finished reply: the HTTP status attribute (absent when the reply has none), the text of
`url().toString()`, and the document `QJsonDocument::fromJson` yields for the body (`null` when
the body is not JSON). -/
structure QNetworkReply where
  httpStatusCode : Option Nat
  url : String
  document : QJsonValue

/-! ## The identifier map -/

/-- The identifier map `m_fileTreeMap`, as a list of bindings with distinct keys. -/
abbrev FileTreeMap := List (String × ItemPtr)

/-- Lookup of a key: the bound pointer, if the key is present. -/
def FileTreeMap.find : FileTreeMap → String → Option ItemPtr
  | [], _ => none
  | (k, v) :: rest, key => if k = key then some v else FileTreeMap.find rest key

/-- The assignment `map[key] = v`: rebinds an existing key, or adds the key. -/
def FileTreeMap.assign : FileTreeMap → String → ItemPtr → FileTreeMap
  | [], key, v => [(key, v)]
  | (k, w) :: rest, key, v =>
    if k = key then (k, v) :: rest else (k, w) :: FileTreeMap.assign rest key v

/-- The read `map[key]` on a non-const map: the bound pointer; an absent key is first bound to
the null pointer. -/
def FileTreeMap.index (map : FileTreeMap) (key : String) : ItemPtr × FileTreeMap :=
  match FileTreeMap.find map key with
  | some v => (v, map)
  | none => (none, FileTreeMap.assign map key none)

/-! ## The model state -/

/-- The state of a GoogleDriveModel object together with what it has emitted and requested. -/
structure GoogleDriveModel where
  /-- the FileTreeItem objects allocated so far; the address of an item is its position -/
  heap : List FileTreeItem
  m_fileTreeMap : FileTreeMap
  m_clientId : String
  m_clientSecret : String
  m_redirectUri : String
  m_accessToken : String
  m_refreshToken : String
  /-- QAbstractItemModel: insertions begun with beginInsertRows and not yet ended -/
  changes : List (QModelIndex × Int × Int)
  /-- the signals emitted so far, oldest first -/
  emitted : List Signal
  /-- the requests passed to `conManager.get` so far, oldest first -/
  getRequests : List QNetworkRequest
deriving DecidableEq, Repr

namespace GoogleDriveModel

/-- GoogleDriveModel::GoogleDriveModel: the map holds the single node "root". -/
def init : GoogleDriveModel :=
  { heap := [⟨"root", "", "", "", none, []⟩]
    m_fileTreeMap := [("root", some 0)]
    m_clientId := ""
    m_clientSecret := ""
    m_redirectUri := ""
    m_accessToken := ""
    m_refreshToken := ""
    changes := []
    emitted := []
    getRequests := [] }

/-- GoogleDriveModel::setClientId. -/
def setClientId (m : GoogleDriveModel) (clientId : String) : GoogleDriveModel :=
  { m with m_clientId := clientId }

/-- GoogleDriveModel::setClientSecret. -/
def setClientSecret (m : GoogleDriveModel) (clientSecret : String) : GoogleDriveModel :=
  { m with m_clientSecret := clientSecret }

/-- GoogleDriveModel::setRedirectUri. -/
def setRedirectUri (m : GoogleDriveModel) (redirectUri : String) : GoogleDriveModel :=
  { m with m_redirectUri := redirectUri }

/-- Dereference of a `FileTreeItem *`. -/
def deref (m : GoogleDriveModel) (p : ItemPtr) : Except Fault FileTreeItem :=
  match p with
  | none => .error .nullDereference
  | some a =>
    match m.heap[a]? with
    | some item => .ok item
    | none => .error .danglingPointer

/-- Update of the object a `FileTreeItem *` points to. -/
def modify (m : GoogleDriveModel) (p : ItemPtr) (f : FileTreeItem → FileTreeItem) :
    Except Fault GoogleDriveModel :=
  match p with
  | none => .error .nullDereference
  | some a =>
    match m.heap[a]? with
    | some item => .ok { m with heap := m.heap.set a (f item) }
    | none => .error .danglingPointer

/-- Modelled from the spec: the expression `new FileTreeItem(this, id, containingFolder)` (the
constructor is in the absent filetreeitem.cpp) allocates a fresh item at the next address, with
the given id and containing folder, empty texts and no children. -/
def newFileTreeItem (m : GoogleDriveModel) (id : String) (containingFolder : ItemPtr) :
    ItemPtr × GoogleDriveModel :=
  (some m.heap.length,
   { m with heap := m.heap ++ [⟨id, "", "", "", containingFolder, []⟩] })

/-- Modelled from the spec: FileTreeItem::getId (absent filetreeitem.cpp) reads the id. -/
def getId (m : GoogleDriveModel) (p : ItemPtr) : Except Fault String :=
  (m.deref p).map (·.id)

/-- Modelled from the spec: FileTreeItem::getContainingFolder (absent filetreeitem.cpp) reads the
containing folder the item was constructed with. -/
def getContainingFolder (m : GoogleDriveModel) (p : ItemPtr) : Except Fault ItemPtr :=
  (m.deref p).map (·.containingFolder)

/-- Modelled from the spec: FileTreeItem::childCount (absent filetreeitem.cpp) is the length of
the child sequence. -/
def childCount (m : GoogleDriveModel) (p : ItemPtr) : Except Fault Int :=
  (m.deref p).map (fun item => (item.children.length : Int))

/-- Modelled from the spec: FileTreeItem::getChild(row) (absent filetreeitem.cpp) is the child at
`row`, null when out of range. -/
def getChild (m : GoogleDriveModel) (p : ItemPtr) (row : Nat) : Except Fault ItemPtr :=
  (m.deref p).map (fun item => (item.children[row]?).getD none)

/-- Position of a pointer in a child list, -1 when absent (QList::indexOf). -/
def indexOfPtr : List ItemPtr → ItemPtr → Int
  | [], _ => -1
  | c :: rest, p => if c = p then 0 else
    let r := indexOfPtr rest p
    if r < 0 then -1 else r + 1

/-- Modelled from the spec: FileTreeItem::indexOf(item) (absent filetreeitem.cpp) is the
position of `item` among the children. -/
def indexOf (m : GoogleDriveModel) (p item : ItemPtr) : Except Fault Int :=
  (m.deref p).map (fun x => indexOfPtr x.children item)

/-- Modelled from the spec: FileTreeItem::addChild(child) (absent filetreeitem.cpp) appends the
child to the ordered child sequence. -/
def addChild (m : GoogleDriveModel) (p child : ItemPtr) : Except Fault GoogleDriveModel :=
  m.modify p (fun x => { x with children := x.children ++ [child] })

/-- Modelled from the spec: FileTreeItem::setTitle (absent filetreeitem.cpp) stores the title. -/
def setTitle (m : GoogleDriveModel) (p : ItemPtr) (t : String) : Except Fault GoogleDriveModel :=
  m.modify p (fun x => { x with title := t })

/-- Modelled from the spec: FileTreeItem::setMimeType (absent filetreeitem.cpp) stores the MIME
type. -/
def setMimeType (m : GoogleDriveModel) (p : ItemPtr) (t : String) :
    Except Fault GoogleDriveModel :=
  m.modify p (fun x => { x with mimeType := t })

/-- Modelled from the spec: FileTreeItem::setAlternateLink (absent filetreeitem.cpp) stores the
link. -/
def setAlternateLink (m : GoogleDriveModel) (p : ItemPtr) (t : String) :
    Except Fault GoogleDriveModel :=
  m.modify p (fun x => { x with alternateLink := t })

/-- The statement `emit sig` for a signal without a slot inside the class. -/
def emit (m : GoogleDriveModel) (sig : Signal) : GoogleDriveModel :=
  { m with emitted := m.emitted ++ [sig] }

/-- QAbstractItemModel::beginInsertRows: records the pending insertion and emits
rowsAboutToBeInserted. -/
def beginInsertRows (m : GoogleDriveModel) (parent : QModelIndex) (first last : Int) :
    GoogleDriveModel :=
  { m with changes := (parent, first, last) :: m.changes
           emitted := m.emitted ++ [.rowsAboutToBeInserted parent first last] }

/-- QAbstractItemModel::endInsertRows: takes the pending insertion and emits rowsInserted. -/
def endInsertRows (m : GoogleDriveModel) : Except Fault GoogleDriveModel :=
  match m.changes with
  | [] => .error .assertionFailed
  | (parent, first, last) :: rest =>
    .ok { m with changes := rest
                 emitted := m.emitted ++ [.rowsInserted parent first last] }

/-- GoogleDriveModel::index(FileTreeItem *item). -/
def index (m : GoogleDriveModel) (item : ItemPtr) : Except Fault QModelIndex := do
  let _ ← m.getId item
  let parent ← m.getContainingFolder item
  if parent.isSome then
    let row ← m.indexOf parent item
    pure (createIndex row 0 item)
  else
    pure (createIndex 0 0 item)

/-- GoogleDriveModel::parent(const QModelIndex &child). -/
def parent (m : GoogleDriveModel) (child : QModelIndex) : Except Fault QModelIndex := do
  let item := child.internalPointer
  if item.isNone then
    pure QModelIndex.invalid
  else
    let item ← m.getContainingFolder item
    let pparentItem ← m.getContainingFolder item
    if pparentItem.isNone then
      pure (createIndex 0 0 item)
    else
      let row ← m.indexOf pparentItem item
      pure (createIndex row 0 item)

/-- GoogleDriveModel::accessToken. -/
def accessToken (m : GoogleDriveModel) : String := m.m_accessToken

/-- GoogleDriveModel::refreshToken. -/
def refreshToken (m : GoogleDriveModel) : String := m.m_refreshToken

/-- GoogleDriveModel::requestListChildren(parentName). -/
def requestListChildren (m : GoogleDriveModel) (parentName : String) : GoogleDriveModel :=
  let _ := parentName
  let rq : QNetworkRequest :=
    { scheme := "https"
      host := "www.googleapis.com"
      path := "/drive/v2/files"
      query := [("key", m.m_clientId), ("q", "\"root\" in parents")]
      rawHeaders := [("Authorization", "Bearer " ++ m.m_accessToken)] }
  { m with getRequests := m.getRequests ++ [rq] }

/-- GoogleDriveModel::handleAccessTokenChanged. -/
def handleAccessTokenChanged (m : GoogleDriveModel) : Except Fault GoogleDriveModel :=
  if m.m_accessToken.isEmpty then .error .assertionFailed
  else .ok (m.requestListChildren "root")

/-- GoogleDriveModel::setAccessToken; `emit accessTokenChanged()` runs the connected slot
handleAccessTokenChanged. -/
def setAccessToken (m : GoogleDriveModel) (accessToken : String) :
    Except Fault GoogleDriveModel :=
  if m.m_accessToken ≠ accessToken then
    handleAccessTokenChanged (({ m with m_accessToken := accessToken }).emit .accessTokenChanged)
  else .ok m

/-- GoogleDriveModel::setRefreshToken. -/
def setRefreshToken (m : GoogleDriveModel) (refreshToken : String) : GoogleDriveModel :=
  ({ m with m_refreshToken := refreshToken }).emit .refreshTokenChanged

/-- GoogleDriveModel::handleJsonObject with a bound on the recursion depth. -/
def handleJsonObjectAux : Nat → GoogleDriveModel → QJsonObject → Except Fault GoogleDriveModel
  | 0, _, _ => .error .recursionBound
  | fuel + 1, m, object =>
    if (QJsonObject.get object "kind").toString = "drive#fileList" then
      let itemsValue := QJsonObject.get object "items"
      if itemsValue.isArray then
        let itemsArray := itemsValue.toArray
        itemsArray.foldlM (fun m item => handleJsonObjectAux fuel m item.toObject) m
      else .error .assertionFailed
    else if (QJsonObject.get object "kind").toString = "drive#file" then do
      let fileId := (QJsonObject.get object "id").toString
      let (parent, m) :=
        if (QJsonObject.get
              (QJsonArray.get (QJsonObject.get object "parents").toArray 0).toObject
              "isRoot").toBool then
          let (p, map) := FileTreeMap.index m.m_fileTreeMap "root"
          (p, { m with m_fileTreeMap := map })
        else ((none : ItemPtr), m)
      let folder ← m.getContainingFolder parent
      let (fileTreeItem, m) := m.newFileTreeItem fileId folder
      let m ← m.setTitle fileTreeItem (QJsonObject.get object "title").toString
      let m ← m.setMimeType fileTreeItem (QJsonObject.get object "mimeType").toString
      let m ← m.setAlternateLink fileTreeItem (QJsonObject.get object "alternateLink").toString
      let parentIndex ← m.index parent
      let count ← m.childCount parent
      let m := m.beginInsertRows parentIndex count count
      let m := { m with m_fileTreeMap := FileTreeMap.assign m.m_fileTreeMap fileId fileTreeItem }
      let m ← m.addChild parent fileTreeItem
      m.endInsertRows
    else .ok m

/-- GoogleDriveModel::handleJsonObject: the recursion is bounded by the nesting depth of the
object, which it never exceeds. -/
def handleJsonObject (m : GoogleDriveModel) (object : QJsonObject) :
    Except Fault GoogleDriveModel :=
  handleJsonObjectAux (QJsonValue.object object).depth m object

/-- GoogleDriveModel::networkReplyFinished. -/
def networkReplyFinished (m : GoogleDriveModel) (reply : QNetworkReply) :
    Except Fault GoogleDriveModel :=
  if reply.httpStatusCode = some 401 then
    .ok (m.emit .credentialExpired)
  else if reply.document.isObject then
    let object := reply.document.toObject
    if QString.contains reply.url "/oauth2/v3/token" then do
      let m ← m.setAccessToken (QJsonObject.get object "access_token").toString
      let m := m.setRefreshToken (QJsonObject.get object "refresh_token").toString
      pure (m.emit .getNewAccessToken)
    else
      m.handleJsonObject object
  else .error .assertionFailed

end GoogleDriveModel

open GoogleDriveModel

/-- A 'drive#file' record with the given fields whose first parents entry has the given
isRoot flag. -/
def fileRecord (id title mimeType alternateLink : String) (isRoot : Bool) : QJsonObject :=
  [("kind", .string "drive#file"), ("id", .string id), ("title", .string title),
   ("mimeType", .string mimeType), ("alternateLink", .string alternateLink),
   ("parents", .array [.object [("isRoot", .bool isRoot)]])]

/-- A 'drive#fileList' object with the given items. -/
def fileList (items : List QJsonValue) : QJsonObject :=
  [("kind", .string "drive#fileList"), ("items", .array items)]

/-! ## Vocabulary of the statements: records, batches, expected states -/

/-- The test of line 246: the first entry of the record's parents array has isRoot = true. -/
def firstParentIsRoot (object : QJsonObject) : Bool :=
  (QJsonObject.get (QJsonArray.get (QJsonObject.get object "parents").toArray 0).toObject
    "isRoot").toBool

/-- The kind of a record. -/
def kindOf (object : QJsonObject) : String := (QJsonObject.get object "kind").toString

/-- The identifier of a record. -/
def idOf (object : QJsonObject) : String := (QJsonObject.get object "id").toString

/-- The tree item a record describes, as handleJsonObject fills it in under a parent whose own
containing folder is `folder`. -/
def itemOf (object : QJsonObject) (folder : ItemPtr) : FileTreeItem :=
  { id := idOf object
    title := (QJsonObject.get object "title").toString
    mimeType := (QJsonObject.get object "mimeType").toString
    alternateLink := (QJsonObject.get object "alternateLink").toString
    containingFolder := folder
    children := [] }

/-- The state after a record was added under the item `ri` stored at address `r`. -/
def withChildAt (m : GoogleDriveModel) (r : Nat) (ri : FileTreeItem) (object : QJsonObject) :
    GoogleDriveModel :=
  { m with
    heap := (m.heap.set r { ri with children := ri.children ++ [some m.heap.length] })
              ++ [itemOf object ri.containingFolder]
    m_fileTreeMap := FileTreeMap.assign m.m_fileTreeMap (idOf object) (some m.heap.length)
    emitted := m.emitted ++
      [.rowsAboutToBeInserted (createIndex 0 0 (some r)) ri.children.length ri.children.length,
       .rowsInserted (createIndex 0 0 (some r)) ri.children.length ri.children.length] }

/-- The signals of `n` successive single-row insertions under `parent`, starting at row `k`. -/
def insertSignals (parent : QModelIndex) : Nat → Nat → List Signal
  | _, 0 => []
  | k, n + 1 =>
    .rowsAboutToBeInserted parent k k :: .rowsInserted parent k k ::
      insertSignals parent (k + 1) n

/-- The tree shape every state of the model has: "root" is bound to an allocated item, and no
allocated item has a containing folder. -/
def RootBound (m : GoogleDriveModel) : Prop :=
  (∃ r, FileTreeMap.find m.m_fileTreeMap "root" = some (some r) ∧ r < m.heap.length) ∧
  ∀ x ∈ m.heap, x.containingFolder = none

/-- The states reachable from the constructor by the setters and by completed calls of
networkReplyFinished and handleJsonObject. -/
inductive Reachable : GoogleDriveModel → Prop where
  | init : Reachable init
  | setClientId (m : GoogleDriveModel) (clientId : String) :
      Reachable m → Reachable (m.setClientId clientId)
  | setClientSecret (m : GoogleDriveModel) (clientSecret : String) :
      Reachable m → Reachable (m.setClientSecret clientSecret)
  | setRedirectUri (m : GoogleDriveModel) (redirectUri : String) :
      Reachable m → Reachable (m.setRedirectUri redirectUri)
  | handleJsonObject (m m1 : GoogleDriveModel) (object : QJsonObject) :
      Reachable m → m.handleJsonObject object = .ok m1 → Reachable m1
  | networkReplyFinished (m m1 : GoogleDriveModel) (reply : QNetworkReply) :
      Reachable m → m.networkReplyFinished reply = .ok m1 → Reachable m1

/-- The row-insert notifications (rowsInserted signals) among the emitted signals: parent index,
first row, last row. -/
def rowInserts : List Signal → List (QModelIndex × Int × Int)
  | [] => []
  | .rowsInserted parent first last :: rest => (parent, first, last) :: rowInserts rest
  | _ :: rest => rowInserts rest

/-- The records of the two-record batch used as a concrete input: ids "a" and "b", both with a
first parents entry that has isRoot = true. -/
def twoRecords : List QJsonValue :=
  [.object (fileRecord "a" "Title A" "text/plain" "https://a" true),
   .object (fileRecord "b" "Title B" "text/plain" "https://b" true)]

/-- The fresh model after the record "a" was handled. -/
def afterA : GoogleDriveModel :=
  { init with
    heap := [⟨"root", "", "", "", none, [some 1]⟩, ⟨"a", "t", "m", "l", none, []⟩]
    m_fileTreeMap := [("root", some 0), ("a", some 1)]
    emitted := [.rowsAboutToBeInserted (createIndex 0 0 (some 0)) 0 0,
                .rowsInserted (createIndex 0 0 (some 0)) 0 0] }

/-- The state `afterA` after a second record with the id "a" was handled. -/
def afterAA : GoogleDriveModel :=
  { init with
    heap := [⟨"root", "", "", "", none, [some 1, some 2]⟩, ⟨"a", "t", "m", "l", none, []⟩,
             ⟨"a", "t2", "m2", "l2", none, []⟩]
    m_fileTreeMap := [("root", some 0), ("a", some 2)]
    emitted := [.rowsAboutToBeInserted (createIndex 0 0 (some 0)) 0 0,
                .rowsInserted (createIndex 0 0 (some 0)) 0 0,
                .rowsAboutToBeInserted (createIndex 0 0 (some 0)) 1 1,
                .rowsInserted (createIndex 0 0 (some 0)) 1 1] }

/-- An item of unexpected shape: the kind of the element read as an object is neither
'drive#file' nor 'drive#fileList' (a missing kind and a non-object element read as ""). -/
def isUnexpected (v : QJsonValue) : Bool :=
  kindOf v.toObject ≠ "drive#file" && kindOf v.toObject ≠ "drive#fileList"

/-- A batch mixing the two well-formed records with a record of unknown kind, a record
without kind, and two elements that are not objects. -/
def mixedItems : List QJsonValue :=
  [.object [("kind", .string "drive#about")],
   .object (fileRecord "a" "Title A" "text/plain" "https://a" true),
   .null,
   .object [("id", .string "x")],
   .object (fileRecord "b" "Title B" "text/plain" "https://b" true),
   .string "drive#file"]

/-- The request `requestListChildren` builds when the client id is `clientId` and the stored
access token is `token`. -/
def listRequest (clientId token : String) : QNetworkRequest :=
  { scheme := "https"
    host := "www.googleapis.com"
    path := "/drive/v2/files"
    query := [("key", clientId), ("q", "\"root\" in parents")]
    rawHeaders := [("Authorization", "Bearer " ++ token)] }

/-- QUrlQuery::queryItemValue: the value of the first query item named `key`. -/
def queryItemValue : List (String × String) → String → Option String
  | [], _ => none
  | (k, v) :: rest, key => if k = key then some v else queryItemValue rest key

/-- A reply to the token-exchange URL with the given status and body. -/
def tokenReply (status : Nat) (body : QJsonObject) : QNetworkReply :=
  { httpStatusCode := some status
    url := "https://www.googleapis.com/oauth2/v3/token"
    document := .object body }

/-- The access_token text a reply carries, as networkReplyFinished reads it. -/
def accessTokenOf (reply : QNetworkReply) : String :=
  (QJsonObject.get reply.document.toObject "access_token").toString

/-- The root listing requests a sequence of access tokens causes when `cur` is the stored
token: one for each token that differs from the token stored when it arrives. -/
def listingsIssued (clientId : String) : String → List String → List QNetworkRequest
  | _, [] => []
  | cur, a :: rest =>
    (if cur = a then [] else [listRequest clientId a]) ++ listingsIssued clientId a rest

/-- The fresh model after the token-exchange reply carrying "A"/"B". -/
def afterTokenA : GoogleDriveModel :=
  { init with
    m_accessToken := "A"
    m_refreshToken := "B"
    emitted := [.accessTokenChanged, .refreshTokenChanged, .getNewAccessToken]
    getRequests := [listRequest "" "A"] }

/-- The state `afterTokenA` after a second token-exchange reply carrying "A2"/"B2". -/
def afterTokenA2 : GoogleDriveModel :=
  { init with
    m_accessToken := "A2"
    m_refreshToken := "B2"
    emitted := [.accessTokenChanged, .refreshTokenChanged, .getNewAccessToken,
                .accessTokenChanged, .refreshTokenChanged, .getNewAccessToken]
    getRequests := [listRequest "" "A", listRequest "" "A2"] }

/-! ## The recursion bound is never reached -/

theorem depth_get_le (o : QJsonObject) (key : String) :
    (QJsonObject.get o key).depth ≤ depthObject o := by
  induction o with
  | nil => simp [QJsonObject.get, QJsonValue.depth]
  | cons kv rest ih =>
    obtain ⟨k, v⟩ := kv
    simp only [QJsonObject.get, depthObject]
    split
    · exact le_max_left _ _
    · exact le_trans ih (le_max_right _ _)

theorem depth_le_depthArray (a : List QJsonValue) (v : QJsonValue) (hv : v ∈ a) :
    v.depth ≤ depthArray a := by
  induction a with
  | nil => cases hv
  | cons w rest ih =>
    simp only [depthArray]
    rcases List.mem_cons.mp hv with h | h
    · subst h
      exact le_max_left _ _
    · exact le_trans (ih h) (le_max_right _ _)

theorem depth_toObject_le (v : QJsonValue) :
    (QJsonValue.object v.toObject).depth ≤ max 1 v.depth := by
  cases v <;> simp [QJsonValue.toObject, QJsonValue.depth, depthObject]

/-- Every element of the items array of an object is handled within the object's depth less
one. -/
theorem depth_item_le (o : QJsonObject) (key : String) (v : QJsonValue)
    (hv : v ∈ (QJsonObject.get o key).toArray) :
    (QJsonValue.object v.toObject).depth ≤ depthObject o := by
  have h1 := depth_get_le o key
  cases hget : QJsonObject.get o key with
  | array a =>
    rw [hget] at hv h1
    have h2 := depth_le_depthArray a v hv
    have h3 := depth_toObject_le v
    simp only [QJsonValue.depth] at h1
    have h4 : max 1 v.depth ≤ depthArray a + 1 := max_le (by omega) (by omega)
    omega
  | _ => rw [hget] at hv; simp [QJsonValue.toArray] at hv

theorem foldlM_congr_mem {α β : Type} (F G : β → α → Except Fault β) (l : List α)
    (h : ∀ x ∈ l, ∀ b, F b x = G b x) (b : β) : l.foldlM F b = l.foldlM G b := by
  induction l generalizing b with
  | nil => rfl
  | cons x xs ih =>
    simp only [List.foldlM_cons]
    rw [h x (List.mem_cons_self _ _) b]
    cases G b x with
    | error e => rfl
    | ok b1 => exact ih (fun y hy => h y (List.mem_cons_of_mem _ hy)) b1

/-- Any two bounds that are at least the nesting depth give the same result. -/
theorem handleJsonObjectAux_bound (f g : Nat) (m : GoogleDriveModel) (object : QJsonObject)
    (hf : (QJsonValue.object object).depth ≤ f) (hg : (QJsonValue.object object).depth ≤ g) :
    handleJsonObjectAux f m object = handleJsonObjectAux g m object := by
  induction f generalizing g m object with
  | zero => simp [QJsonValue.depth] at hf
  | succ f ih =>
    cases g with
    | zero => simp [QJsonValue.depth] at hg
    | succ g =>
      simp only [QJsonValue.depth, Nat.add_le_add_iff_right] at hf hg
      simp only [handleJsonObjectAux]
      split
      · split
        · apply foldlM_congr_mem
          intro v hv b
          have hd := depth_item_le object "items" v hv
          exact ih g b v.toObject (le_trans hd hf) (le_trans hd hg)
        · rfl
      · rfl

/-- The bounded recursion agrees with handleJsonObject for every bound that is at least the
nesting depth of the object. -/
theorem handleJsonObject_eq (f : Nat) (m : GoogleDriveModel) (object : QJsonObject)
    (hf : (QJsonValue.object object).depth ≤ f) :
    handleJsonObjectAux f m object = handleJsonObject m object :=
  handleJsonObjectAux_bound f _ m object hf (le_refl _)

theorem bind_ne_bound {α β : Type} (x : Except Fault α) (f : α → Except Fault β)
    (hx : x ≠ .error .recursionBound) (hf : ∀ a, f a ≠ .error .recursionBound) :
    (x >>= f) ≠ .error .recursionBound := by
  cases x with
  | error e =>
    intro h
    apply hx
    cases e <;> first | rfl | cases h
  | ok a => exact hf a

theorem map_ne_bound {α β : Type} (x : Except Fault α) (f : α → β)
    (hx : x ≠ .error .recursionBound) : Except.map f x ≠ .error .recursionBound := by
  cases x with
  | error e =>
    intro h
    apply hx
    cases e <;> first | rfl | cases h
  | ok a => intro h; cases h

theorem deref_ne_bound (m : GoogleDriveModel) (p : ItemPtr) :
    m.deref p ≠ .error .recursionBound := by
  unfold deref
  split
  · intro h; cases h
  · split <;> (intro h; cases h)

theorem modify_ne_bound (m : GoogleDriveModel) (p : ItemPtr) (f : FileTreeItem → FileTreeItem) :
    m.modify p f ≠ .error .recursionBound := by
  unfold GoogleDriveModel.modify
  split
  · intro h; cases h
  · split <;> (intro h; cases h)

theorem index_ne_bound (m : GoogleDriveModel) (p : ItemPtr) :
    m.index p ≠ .error .recursionBound := by
  unfold GoogleDriveModel.index
  refine bind_ne_bound _ _ (map_ne_bound _ _ (deref_ne_bound m p)) (fun _ => ?_)
  refine bind_ne_bound _ _ (map_ne_bound _ _ (deref_ne_bound m p)) (fun parent => ?_)
  split
  · refine bind_ne_bound _ _ (map_ne_bound _ _ (deref_ne_bound m parent)) (fun _ => ?_)
    intro h; cases h
  · intro h; cases h

theorem endInsertRows_ne_bound (m : GoogleDriveModel) :
    m.endInsertRows ≠ .error .recursionBound := by
  unfold endInsertRows
  split <;> (intro h; cases h)

theorem foldlM_ne_bound {α β : Type} (F : β → α → Except Fault β) (l : List α)
    (h : ∀ x ∈ l, ∀ b, F b x ≠ .error .recursionBound) (b : β) :
    l.foldlM F b ≠ .error .recursionBound := by
  induction l generalizing b with
  | nil => intro h1; cases h1
  | cons x xs ih =>
    simp only [List.foldlM_cons]
    exact bind_ne_bound _ _ (h x (List.mem_cons_self _ _) b)
      (fun b1 => ih (fun y hy => h y (List.mem_cons_of_mem _ hy)) b1)

/-- With a bound that is at least the nesting depth, the recursion bound is never the
outcome. -/
theorem handleJsonObjectAux_ne_bound (f : Nat) (m : GoogleDriveModel) (object : QJsonObject)
    (hf : (QJsonValue.object object).depth ≤ f) :
    handleJsonObjectAux f m object ≠ .error .recursionBound := by
  induction f generalizing m object with
  | zero => simp [QJsonValue.depth] at hf
  | succ f ih =>
    simp only [QJsonValue.depth, Nat.add_le_add_iff_right] at hf
    rw [handleJsonObjectAux]
    split
    · dsimp only
      split
      · apply foldlM_ne_bound
        intro v hv b
        exact ih b v.toObject (le_trans (depth_item_le object "items" v hv) hf)
      · intro h; cases h
    · split
      · refine bind_ne_bound _ _ (map_ne_bound _ _ (deref_ne_bound _ _)) (fun folder => ?_)
        refine bind_ne_bound _ _ (modify_ne_bound _ _ _) (fun m1 => ?_)
        refine bind_ne_bound _ _ (modify_ne_bound _ _ _) (fun m2 => ?_)
        refine bind_ne_bound _ _ (modify_ne_bound _ _ _) (fun m3 => ?_)
        refine bind_ne_bound _ _ (index_ne_bound _ _) (fun parentIndex => ?_)
        refine bind_ne_bound _ _ (map_ne_bound _ _ (deref_ne_bound _ _)) (fun count => ?_)
        refine bind_ne_bound _ _ (modify_ne_bound _ _ _) (fun m4 => ?_)
        exact endInsertRows_ne_bound _
      · intro h; cases h

/-- The recursion bound is never the outcome of handleJsonObject: every fault it reports is a
fault of the source. -/
theorem handleJsonObject_ne_bound (m : GoogleDriveModel) (object : QJsonObject) :
    handleJsonObject m object ≠ .error .recursionBound :=
  handleJsonObjectAux_ne_bound _ m object (le_refl _)

/-- The list branch of handleJsonObject: the items are handled in order, each by
handleJsonObject itself. -/
theorem handleJsonObject_fileList (m : GoogleDriveModel) (object : QJsonObject)
    (items : List QJsonValue)
    (hkind : (QJsonObject.get object "kind").toString = "drive#fileList")
    (hitems : QJsonObject.get object "items" = .array items) :
    handleJsonObject m object =
      items.foldlM (fun m item => handleJsonObject m item.toObject) m := by
  have hstep : handleJsonObject m object =
      items.foldlM (fun m item => handleJsonObjectAux (depthObject object) m item.toObject) m := by
    show handleJsonObjectAux (depthObject object + 1) m object = _
    rw [handleJsonObjectAux]
    simp only [hkind, hitems, QJsonValue.isArray, QJsonValue.toArray, if_true]
  rw [hstep]
  apply foldlM_congr_mem
  intro v hv b
  exact handleJsonObject_eq _ b v.toObject
    (depth_item_le object "items" v (by rw [hitems]; exact hv))

/-- An object whose kind is neither 'drive#fileList' nor 'drive#file' is ignored. -/
theorem handleJsonObject_other (m : GoogleDriveModel) (object : QJsonObject)
    (h1 : (QJsonObject.get object "kind").toString ≠ "drive#fileList")
    (h2 : (QJsonObject.get object "kind").toString ≠ "drive#file") :
    handleJsonObject m object = .ok m := by
  unfold handleJsonObject
  simp [QJsonValue.depth, handleJsonObjectAux, h1, h2]

/-! ## One 'drive#file' record -/

theorem ok_bind {α β : Type} (a : α) (f : α → Except Fault β) :
    (Except.ok a >>= f) = f a := rfl

theorem error_bind {α β : Type} (e : Fault) (f : α → Except Fault β) :
    (Except.error e >>= f) = Except.error e := rfl

theorem map_ok {α β : Type} (a : α) (f : α → β) :
    Except.map f (Except.ok a : Except Fault α) = Except.ok (f a) := rfl

/-- A root-parented 'drive#file' record, handled when "root" is bound to an allocated item
without containing folder, is added as the last child of that item. -/
theorem handleJsonObject_file_root (m : GoogleDriveModel) (object : QJsonObject) (r : Nat)
    (ri : FileTreeItem)
    (hkind : kindOf object = "drive#file") (hroot : firstParentIsRoot object = true)
    (hfind : FileTreeMap.find m.m_fileTreeMap "root" = some (some r))
    (hr : m.heap[r]? = some ri) (hfolder : ri.containingFolder = none) :
    handleJsonObject m object = .ok (withChildAt m r ri object) := by
  unfold kindOf at hkind
  unfold firstParentIsRoot at hroot
  have hlt : r < m.heap.length := by
    rcases Nat.lt_or_ge r m.heap.length with h | h
    · exact h
    · rw [List.getElem?_eq_none h] at hr; cases hr
  show handleJsonObjectAux (depthObject object + 1) m object = _
  rw [handleJsonObjectAux]
  simp [hkind, hroot, FileTreeMap.index, hfind, getContainingFolder, deref, hr, hfolder,
    newFileTreeItem, setTitle, setMimeType, setAlternateLink, GoogleDriveModel.modify,
    GoogleDriveModel.index, getId, childCount,
    beginInsertRows, addChild, endInsertRows, List.getElem?_append_left, hlt,
    ok_bind, error_bind, map_ok, withChildAt, itemOf, idOf, createIndex]

/-! ## A batch of root-parented records -/

theorem find_assign_ne (map : FileTreeMap) (k key : String) (v : ItemPtr) (h : k ≠ key) :
    FileTreeMap.find (FileTreeMap.assign map k v) key = FileTreeMap.find map key := by
  induction map with
  | nil => simp [FileTreeMap.assign, FileTreeMap.find, h]
  | cons kv rest ih =>
    obtain ⟨k1, w⟩ := kv
    by_cases h1 : k1 = k
    · subst h1
      simp [FileTreeMap.assign, FileTreeMap.find, h]
    · by_cases h2 : k1 = key
      · subst h2
        simp [FileTreeMap.assign, FileTreeMap.find, h1]
      · simp [FileTreeMap.assign, FileTreeMap.find, h1, h2, ih]

theorem find_assign_self (map : FileTreeMap) (k : String) (v : ItemPtr) :
    FileTreeMap.find (FileTreeMap.assign map k v) k = some v := by
  induction map with
  | nil => simp [FileTreeMap.assign, FileTreeMap.find]
  | cons kv rest ih =>
    obtain ⟨k1, w⟩ := kv
    by_cases h1 : k1 = k
    · simp [FileTreeMap.assign, FileTreeMap.find, h1]
    · simp [FileTreeMap.assign, FileTreeMap.find, h1, ih]

theorem set_of_getElem? {α : Type} (l : List α) (r : Nat) (x : α) (h : l[r]? = some x) :
    l.set r x = l := by
  induction l generalizing r with
  | nil => rfl
  | cons y ys ih =>
    cases r with
    | zero => simp at h; simp [h]
    | succ r => simp at h; simp [ih r h]

/-- Handling a sequence of root-parented 'drive#file' records, none with the id "root", appends
one item per record to the heap and to the children of the item bound to "root". -/
theorem foldlM_root_files (items : List QJsonValue) (m : GoogleDriveModel) (r : Nat)
    (ri : FileTreeItem)
    (hall : ∀ v ∈ items, kindOf v.toObject = "drive#file" ∧ firstParentIsRoot v.toObject = true
      ∧ idOf v.toObject ≠ "root")
    (hfind : FileTreeMap.find m.m_fileTreeMap "root" = some (some r))
    (hr : m.heap[r]? = some ri) (hfolder : ri.containingFolder = none) :
    ∃ m1, items.foldlM (fun m item => handleJsonObject m item.toObject) m = .ok m1 ∧
      m1.heap = (m.heap.set r { ri with children :=
          ri.children ++ (List.range' m.heap.length items.length).map some })
        ++ items.map (fun v => itemOf v.toObject none) ∧
      m1.emitted = m.emitted ++
        insertSignals (createIndex 0 0 (some r)) ri.children.length items.length ∧
      FileTreeMap.find m1.m_fileTreeMap "root" = some (some r) := by
  induction items generalizing m ri with
  | nil =>
    refine ⟨m, rfl, ?_, by simp [insertSignals], hfind⟩
    simp only [List.length_nil, List.range'_zero, List.map_nil, List.append_nil]
    exact (set_of_getElem? m.heap r ri hr).symm
  | cons v rest ih =>
    obtain ⟨hk, hroot, hid⟩ := hall v (List.mem_cons_self _ _)
    have hlt : r < m.heap.length := by
      rcases Nat.lt_or_ge r m.heap.length with h | h
      · exact h
      · rw [List.getElem?_eq_none h] at hr; cases hr
    have hstep := handleJsonObject_file_root m v.toObject r ri hk hroot hfind hr hfolder
    have hfind1 : FileTreeMap.find (withChildAt m r ri v.toObject).m_fileTreeMap "root"
        = some (some r) := by
      simp only [withChildAt]
      rw [find_assign_ne _ _ _ _ hid]
      exact hfind
    have hr1 : (withChildAt m r ri v.toObject).heap[r]? =
        some { ri with children := ri.children ++ [some m.heap.length] } := by
      simp [withChildAt, List.getElem?_append_left, hlt]
    obtain ⟨m1, h1, h2, h3, h4⟩ := ih (withChildAt m r ri v.toObject) _
      (fun w hw => hall w (List.mem_cons_of_mem _ hw)) hfind1 hr1 hfolder
    refine ⟨m1, ?_, ?_, ?_, h4⟩
    · simp only [List.foldlM_cons, hstep, ok_bind]
      exact h1
    · rw [h2]
      simp [withChildAt, hfolder, List.range'_succ, List.set_append_left, hlt, List.set_set]
    · rw [h3]
      simp [withChildAt, insertSignals]

/-! ## The states the model can reach -/

theorem handleJsonObject_fileList_notArray (m : GoogleDriveModel) (object : QJsonObject)
    (hkind : (QJsonObject.get object "kind").toString = "drive#fileList")
    (hitems : (QJsonObject.get object "items").isArray = false) :
    handleJsonObject m object = .error .assertionFailed := by
  show handleJsonObjectAux (depthObject object + 1) m object = _
  rw [handleJsonObjectAux]
  simp [hkind, hitems]

theorem handleJsonObject_file_null (m : GoogleDriveModel) (object : QJsonObject)
    (hkind : kindOf object = "drive#file") (hroot : firstParentIsRoot object = false) :
    handleJsonObject m object = .error .nullDereference := by
  unfold kindOf at hkind
  unfold firstParentIsRoot at hroot
  show handleJsonObjectAux (depthObject object + 1) m object = _
  rw [handleJsonObjectAux]
  simp [hkind, hroot, getContainingFolder, deref]
  rfl

theorem rootBound_withChildAt (m : GoogleDriveModel) (r : Nat) (ri : FileTreeItem)
    (object : QJsonObject) (h : RootBound m)
    (hfind : FileTreeMap.find m.m_fileTreeMap "root" = some (some r))
    (hr : m.heap[r]? = some ri) : RootBound (withChildAt m r ri object) := by
  obtain ⟨⟨r0, h0, hlt0⟩, hnone⟩ := h
  have hr0 : r0 = r := by
    rw [hfind] at h0
    injection h0 with h0
    injection h0 with h0
    exact h0.symm
  subst hr0
  have hri : ri.containingFolder = none := hnone ri (List.getElem?_mem hr)
  constructor
  · by_cases hid : idOf object = "root"
    · refine ⟨m.heap.length, ?_, by simp [withChildAt]⟩
      simp only [withChildAt]
      rw [← hid]
      exact find_assign_self _ _ _
    · refine ⟨r0, ?_, by simp [withChildAt]; omega⟩
      simp only [withChildAt]
      rw [find_assign_ne _ _ _ _ hid]
      exact hfind
  · intro x hx
    simp only [withChildAt, List.mem_append, List.mem_singleton] at hx
    rcases hx with hx | hx
    · rcases List.mem_or_eq_of_mem_set hx with h1 | h1
      · exact hnone x h1
      · rw [h1]
        exact hri
    · rw [hx]
      simp [itemOf, hri]

theorem rootBound_foldlM (items : List QJsonValue) (m m1 : GoogleDriveModel)
    (hstep : ∀ v ∈ items, ∀ a b, RootBound a → handleJsonObject a v.toObject = .ok b →
      RootBound b)
    (h : RootBound m)
    (hrun : items.foldlM (fun m item => handleJsonObject m item.toObject) m = .ok m1) :
    RootBound m1 := by
  induction items generalizing m with
  | nil =>
    simp only [List.foldlM_nil] at hrun
    injection hrun with hrun
    rw [← hrun]
    exact h
  | cons v rest ih =>
    simp only [List.foldlM_cons] at hrun
    cases hv : handleJsonObject m v.toObject with
    | error e => rw [hv] at hrun; cases hrun
    | ok m2 =>
      rw [hv, ok_bind] at hrun
      exact ih m2 (fun w hw => hstep w (List.mem_cons_of_mem _ hw))
        (hstep v (List.mem_cons_self _ _) m m2 h hv) hrun

/-- A completed handleJsonObject keeps "root" bound to an allocated item and every item
without containing folder. -/
theorem rootBound_handleJsonObject (n : Nat) :
    ∀ (object : QJsonObject) (m m1 : GoogleDriveModel),
      (QJsonValue.object object).depth ≤ n → RootBound m →
      handleJsonObject m object = .ok m1 → RootBound m1 := by
  induction n with
  | zero =>
    intro object m m1 hd
    simp [QJsonValue.depth] at hd
  | succ n ih =>
    intro object m m1 hd h hrun
    simp only [QJsonValue.depth, Nat.add_le_add_iff_right] at hd
    by_cases hlist : (QJsonObject.get object "kind").toString = "drive#fileList"
    · cases hitems : QJsonObject.get object "items" with
      | array a =>
        rw [handleJsonObject_fileList m object a hlist hitems] at hrun
        refine rootBound_foldlM a m m1 ?_ h hrun
        intro v hv x y hx hxy
        have hdv := depth_item_le object "items" v (by rw [hitems]; exact hv)
        exact ih v.toObject x y (le_trans hdv hd) hx hxy
      | _ =>
        rw [handleJsonObject_fileList_notArray m object hlist (by rw [hitems]; rfl)] at hrun
        cases hrun
    · by_cases hfile : (QJsonObject.get object "kind").toString = "drive#file"
      · cases hroot : firstParentIsRoot object with
        | false =>
          rw [handleJsonObject_file_null m object hfile hroot] at hrun
          cases hrun
        | true =>
          obtain ⟨⟨r, hfind, hlt⟩, hnone⟩ := h
          have hr : m.heap[r]? = some (m.heap[r]) := List.getElem?_eq_getElem hlt
          have hri : (m.heap[r]).containingFolder = none :=
            hnone _ (List.getElem_mem _)
          rw [handleJsonObject_file_root m object r _ hfile hroot hfind hr hri] at hrun
          injection hrun with hrun
          rw [← hrun]
          exact rootBound_withChildAt m r _ object ⟨⟨r, hfind, hlt⟩, hnone⟩ hfind hr
      · rw [handleJsonObject_other m object hlist hfile] at hrun
        injection hrun with hrun
        rw [← hrun]
        exact h

theorem rootBound_networkReplyFinished (m m1 : GoogleDriveModel) (reply : QNetworkReply)
    (h : RootBound m) (hrun : networkReplyFinished m reply = .ok m1) : RootBound m1 := by
  unfold networkReplyFinished at hrun
  split at hrun
  · injection hrun with hrun
    rw [← hrun]
    exact h
  · split at hrun
    · split at hrun
      · dsimp only at hrun
        cases hset : m.setAccessToken
            (QJsonObject.get reply.document.toObject "access_token").toString with
        | error e => rw [hset] at hrun; cases hrun
        | ok m2 =>
          rw [hset, ok_bind] at hrun
          simp only [pure, Except.pure, Except.ok.injEq] at hrun
          have h2 : m2.heap = m.heap ∧ m2.m_fileTreeMap = m.m_fileTreeMap := by
            unfold setAccessToken at hset
            split at hset
            · unfold handleAccessTokenChanged at hset
              split at hset
              · cases hset
              · injection hset with hset
                rw [← hset]
                exact ⟨rfl, rfl⟩
            · injection hset with hset
              rw [← hset]
              exact ⟨rfl, rfl⟩
          have h1 : m1.heap = m.heap ∧ m1.m_fileTreeMap = m.m_fileTreeMap := by
            rw [← hrun]
            exact h2
          unfold RootBound
          rw [h1.1, h1.2]
          exact h
      · exact rootBound_handleJsonObject _ _ m m1 (le_refl _) h hrun
    · cases hrun

/-- Every reachable state has "root" bound to an allocated item, and none of its items has a
containing folder. -/
theorem reachable_shape (m : GoogleDriveModel) (h : Reachable m) : RootBound m := by
  induction h with
  | init => exact ⟨⟨0, rfl, by decide⟩, by decide⟩
  | setClientId m c _ ih => exact ih
  | setClientSecret m c _ ih => exact ih
  | setRedirectUri m c _ ih => exact ih
  | handleJsonObject m m1 object _ hrun ih =>
    exact rootBound_handleJsonObject _ object m m1 (le_refl _) ih hrun
  | networkReplyFinished m m1 reply _ hrun ih =>
    exact rootBound_networkReplyFinished m m1 reply ih hrun

/-- Every reachable state has "root" bound to an allocated item without containing folder:
the shape the theorems about handleJsonObject assume of the tree. -/
theorem reachable_rootBound (m : GoogleDriveModel) (h : Reachable m) :
    ∃ r ri, FileTreeMap.find m.m_fileTreeMap "root" = some (some r) ∧
      m.heap[r]? = some ri ∧ ri.containingFolder = none := by
  obtain ⟨⟨r, hfind, hlt⟩, hnone⟩ := reachable_shape m h
  exact ⟨r, m.heap[r], hfind, List.getElem?_eq_getElem hlt, hnone _ (List.getElem_mem _)⟩

theorem rowInserts_append (xs ys : List Signal) :
    rowInserts (xs ++ ys) = rowInserts xs ++ rowInserts ys := by
  induction xs with
  | nil => rfl
  | cons x xs ih => cases x <;> simp [rowInserts, ih]

theorem rowInserts_insertSignals (parent : QModelIndex) (k n : Nat) :
    rowInserts (insertSignals parent k n) =
      (List.range n).map (fun i => (parent, ((k + i : Nat) : Int), ((k + i : Nat) : Int))) := by
  induction n generalizing k with
  | zero => rfl
  | succ n ih =>
    simp only [insertSignals, rowInserts, ih, List.range_succ_eq_map, List.map_cons, List.map_map]
    simp [Function.comp_def, Nat.add_assoc, Nat.add_comm 1]

/-- Claim C1. For every tree state in which "root" is bound to an item without containing folder
that has `k` children, and every 'drive#fileList' object whose items are all root-parented
'drive#file' records with new, pairwise distinct ids, handleJsonObject completes; afterwards
root has `k + n` children, the old children keep positions `0..k-1`, position `k + i` holds a
new item carrying the id, title, mimeType and alternateLink of record `i`, and the row-insert
notifications emitted are exactly the `n` notifications `(index of root, k + i, k + i)`, in
record order. -/
theorem handleJsonObject_fileList_appends (m : GoogleDriveModel) (object : QJsonObject)
    (items : List QJsonValue) (r k : Nat) (ri : FileTreeItem)
    (hkind : kindOf object = "drive#fileList")
    (hitems : QJsonObject.get object "items" = .array items)
    (hall : ∀ v ∈ items, kindOf v.toObject = "drive#file" ∧ firstParentIsRoot v.toObject = true)
    (hfresh : ∀ v ∈ items, FileTreeMap.find m.m_fileTreeMap (idOf v.toObject) = none)
    (hnodup : (items.map (fun v => idOf v.toObject)).Nodup)
    (hfind : FileTreeMap.find m.m_fileTreeMap "root" = some (some r))
    (hr : m.heap[r]? = some ri) (hfolder : ri.containingFolder = none)
    (hk : ri.children.length = k) :
    ∃ m1, handleJsonObject m object = .ok m1 ∧
      FileTreeMap.find m1.m_fileTreeMap "root" = some (some r) ∧
      m1.childCount (some r) = .ok ((k + items.length : Nat) : Int) ∧
      (∀ j, j < k → m1.getChild (some r) j = m.getChild (some r) j) ∧
      (∀ i (hi : i < items.length), ∃ a,
        m1.getChild (some r) (k + i) = .ok (some a) ∧
        (m1.deref (some a)).map
            (fun x => (x.id, x.title, x.mimeType, x.alternateLink)) =
          .ok (idOf items[i].toObject,
               (QJsonObject.get items[i].toObject "title").toString,
               (QJsonObject.get items[i].toObject "mimeType").toString,
               (QJsonObject.get items[i].toObject "alternateLink").toString)) ∧
      rowInserts m1.emitted = rowInserts m.emitted ++
        (List.range items.length).map
          (fun i => (createIndex 0 0 (some r), ((k + i : Nat) : Int), ((k + i : Nat) : Int))) := by
  have _ := hnodup
  have hlt : r < m.heap.length := by
    rcases Nat.lt_or_ge r m.heap.length with h | h
    · exact h
    · rw [List.getElem?_eq_none h] at hr; cases hr
  have hall1 : ∀ v ∈ items, kindOf v.toObject = "drive#file" ∧
      firstParentIsRoot v.toObject = true ∧ idOf v.toObject ≠ "root" := by
    intro v hv
    refine ⟨(hall v hv).1, (hall v hv).2, ?_⟩
    intro hid
    have := hfresh v hv
    rw [hid, hfind] at this
    cases this
  obtain ⟨m1, h1, h2, h3, h4⟩ := foldlM_root_files items m r ri hall1 hfind hr hfolder
  have hroot1 : m1.heap[r]? = some { ri with children :=
      ri.children ++ (List.range' m.heap.length items.length).map some } := by
    rw [h2]
    simp [List.getElem?_append_left, hlt]
  refine ⟨m1, ?_, h4, ?_, ?_, ?_, ?_⟩
  · rw [handleJsonObject_fileList m object items hkind hitems]
    exact h1
  · simp [childCount, deref, hroot1, map_ok, hk]
  · intro j hj
    simp [getChild, deref, hroot1, hr, map_ok, List.getElem?_append_left, hk, hj]
  · intro i hi
    have hchild : (ri.children ++ (List.range' m.heap.length items.length).map some)[k + i]?
        = some (some (m.heap.length + i)) := by
      rw [List.getElem?_append_right (by omega)]
      have hidx : k + i - ri.children.length = i := by omega
      rw [hidx, List.getElem?_map, List.getElem?_range' _ _ hi]
      simp
    have hnew : m1.heap[m.heap.length + i]? = some (itemOf items[i].toObject none) := by
      rw [h2, List.getElem?_append_right (by simp)]
      have hidx : m.heap.length + i - (m.heap.set r { ri with children :=
          ri.children ++ (List.range' m.heap.length items.length).map some }).length = i := by
        simp
      rw [hidx, List.getElem?_map, List.getElem?_eq_getElem hi]
      rfl
    refine ⟨m.heap.length + i, ?_, ?_⟩
    · simp only [getChild, deref, hroot1, map_ok, hchild, Option.getD_some]
    · simp only [deref, hnew, map_ok, itemOf]
  · rw [h3, rowInserts_append, rowInserts_insertSignals, hk]

/-- Witness for C1 at the fresh model (k = 0) and a list of two records (n = 2): root ends with
two children and the row-insert notifications are at positions 0 and 1. -/
theorem handleJsonObject_fileList_appends_witness :
    ∃ m1, handleJsonObject init (fileList twoRecords) = .ok m1 ∧
      m1.childCount (some 0) = .ok 2 ∧
      rowInserts m1.emitted =
        [(createIndex 0 0 (some 0), 0, 0), (createIndex 0 0 (some 0), 1, 1)] := by
  obtain ⟨m1, h1, _, h3, _, _, h6⟩ :=
    handleJsonObject_fileList_appends init (fileList twoRecords) twoRecords 0 0
      ⟨"root", "", "", "", none, []⟩ (by decide) rfl (by decide) (by decide) (by decide)
      rfl rfl rfl rfl
  exact ⟨m1, h1, h3, h6⟩

/-- Claim C2 (the code departs from it). For every tree state, a 'drive#file' record whose first
parents entry does not have isRoot = true (or that has no parents entry) leaves `parent` null,
and handleJsonObject faults on `parent->getContainingFolder()` instead of completing. -/
theorem handleJsonObject_unknown_parent_faults (m : GoogleDriveModel) (object : QJsonObject)
    (hkind : kindOf object = "drive#file") (hroot : firstParentIsRoot object = false) :
    handleJsonObject m object = .error .nullDereference :=
  handleJsonObject_file_null m object hkind hroot

/-- Witness for C2's theorem: on the fresh model, a record with an isRoot = false parent and a
record without any parents entry both fault. -/
theorem handleJsonObject_unknown_parent_faults_witness :
    handleJsonObject init (fileRecord "a" "t" "m" "l" false) = .error .nullDereference ∧
    handleJsonObject init [("kind", .string "drive#file"), ("id", .string "a")]
      = .error .nullDereference :=
  ⟨handleJsonObject_unknown_parent_faults init _ (by decide) (by decide),
   handleJsonObject_unknown_parent_faults init _ (by decide) (by decide)⟩

/-- Counterexample to claim C3 as stated: `afterA` is the state the fresh model reaches on the
record "a"; handling a second root-parented record with the same id "a" yields `afterAA`: "a"
is rebound in the map from item 1 to the new item 2, root has a second child and a second
row-insert notification was emitted. -/
theorem duplicate_id_mutates_tree :
    handleJsonObject init (fileRecord "a" "t" "m" "l" true) = .ok afterA ∧
    handleJsonObject afterA (fileRecord "a" "t2" "m2" "l2" true) = .ok afterAA ∧
    FileTreeMap.find afterA.m_fileTreeMap "a" = some (some 1) ∧
    FileTreeMap.find afterAA.m_fileTreeMap "a" = some (some 2) ∧
    afterA.childCount (some 0) = .ok 1 ∧
    afterAA.childCount (some 0) = .ok 2 ∧
    rowInserts afterA.emitted = [(createIndex 0 0 (some 0), 0, 0)] ∧
    rowInserts afterAA.emitted =
      [(createIndex 0 0 (some 0), 0, 0), (createIndex 0 0 (some 0), 1, 1)] := by
  decide

/-- Claim C3 as amended. For every tree state in which "root" is bound to an allocated item
without containing folder that has `k` children, and every root-parented 'drive#file' record
whose id is already a key of the identifier map, handleJsonObject completes and treats the
record like a new one: a new item is allocated (at an address no item had before), the id is
rebound to that new item, the new item becomes child `k` of the old root item while its first
`k` children and every other allocated item stay as they were, and one row-insert notification
`(index of root, k, k)` is emitted. -/
theorem handleJsonObject_duplicate_id_rebinds (m : GoogleDriveModel) (object : QJsonObject)
    (r k : Nat) (ri : FileTreeItem)
    (hkind : kindOf object = "drive#file") (hroot : firstParentIsRoot object = true)
    (hdup : (FileTreeMap.find m.m_fileTreeMap (idOf object)).isSome = true)
    (hfind : FileTreeMap.find m.m_fileTreeMap "root" = some (some r))
    (hr : m.heap[r]? = some ri) (hfolder : ri.containingFolder = none)
    (hk : ri.children.length = k) :
    ∃ m1, handleJsonObject m object = .ok m1 ∧
      m.deref (some m.heap.length) = .error .danglingPointer ∧
      FileTreeMap.find m1.m_fileTreeMap (idOf object) = some (some m.heap.length) ∧
      m1.deref (some m.heap.length) = .ok (itemOf object none) ∧
      m1.deref (some r) = .ok { ri with children := ri.children ++ [some m.heap.length] } ∧
      m1.childCount (some r) = .ok ((k + 1 : Nat) : Int) ∧
      (∀ a, a < m.heap.length → a ≠ r → m1.heap[a]? = m.heap[a]?) ∧
      rowInserts m1.emitted = rowInserts m.emitted ++ [(createIndex 0 0 (some r), (k : Int), (k : Int))] := by
  have _ := hdup
  have hlt : r < m.heap.length := by
    rcases Nat.lt_or_ge r m.heap.length with h | h
    · exact h
    · rw [List.getElem?_eq_none h] at hr; cases hr
  refine ⟨withChildAt m r ri object,
    handleJsonObject_file_root m object r ri hkind hroot hfind hr hfolder, ?_, ?_, ?_, ?_, ?_, ?_, ?_⟩
  · simp [deref]
  · simp [withChildAt, find_assign_self]
  · simp [deref, withChildAt, hfolder]
  · simp [deref, withChildAt, List.getElem?_append_left, hlt]
  · simp [childCount, deref, withChildAt, List.getElem?_append_left, hlt, map_ok, hk]
  · intro a ha hne
    simp [withChildAt, List.getElem?_append_left, ha, List.getElem?_set_ne (Ne.symm hne)]
  · simp [withChildAt, rowInserts_append, rowInserts, hk]

/-- Witness for the amended C3 at the state `afterA` and a second record with the id "a". -/
theorem handleJsonObject_duplicate_id_rebinds_witness :
    ∃ m1, handleJsonObject afterA (fileRecord "a" "t2" "m2" "l2" true) = .ok m1 ∧
      FileTreeMap.find m1.m_fileTreeMap "a" = some (some 2) ∧
      m1.childCount (some 0) = .ok 2 := by
  obtain ⟨m1, h1, _, h3, _, _, h6, _, _⟩ :=
    handleJsonObject_duplicate_id_rebinds afterA (fileRecord "a" "t2" "m2" "l2" true) 0 1
      ⟨"root", "", "", "", none, [some 1]⟩ (by decide) (by decide) (by decide) rfl rfl rfl rfl
  exact ⟨m1, h1, h3, h6⟩

/-- Claim C4 (the code departs from it). On the fresh model one root-parented record "a" is
added as child 0 of root (item 1), but the containing folder stored in the new item is root's
own containing folder, the null pointer, not root; `parent(index(item))` then dereferences that
null pointer. -/
theorem inserted_item_folder_is_null :
    handleJsonObject init (fileRecord "a" "t" "m" "l" true) = .ok afterA ∧
    afterA.getChild (some 0) 0 = .ok (some 1) ∧
    afterA.getContainingFolder (some 1) = .ok none ∧
    afterA.index (some 1) = .ok (createIndex 0 0 (some 1)) ∧
    afterA.parent (createIndex 0 0 (some 1)) = .error .nullDereference := by
  decide

/-! ## Batches with unexpected items -/

theorem foldlM_filter_unexpected (items : List QJsonValue) (m : GoogleDriveModel) :
    items.foldlM (fun m item => handleJsonObject m item.toObject) m =
      (items.filter (fun v => !isUnexpected v)).foldlM
        (fun m item => handleJsonObject m item.toObject) m := by
  induction items generalizing m with
  | nil => rfl
  | cons v rest ih =>
    by_cases hv : isUnexpected v = true
    · have h := hv
      simp only [isUnexpected, Bool.and_eq_true, decide_eq_true_eq] at h
      have hskip : handleJsonObject m v.toObject = .ok m :=
        handleJsonObject_other m v.toObject h.2 h.1
      simp only [List.foldlM_cons, hskip, ok_bind, hv, List.filter_cons, Bool.not_true]
      exact ih m
    · simp only [Bool.not_eq_true] at hv
      simp only [List.foldlM_cons, hv, List.filter_cons, Bool.not_false, if_true]
      cases handleJsonObject m v.toObject with
      | error e => rfl
      | ok m1 => exact ih m1

/-- Claim C9. For every tree state in which "root" is bound to an allocated item without
containing folder, and every 'drive#fileList' object whose items are root-parented 'drive#file'
records with new, pairwise distinct ids mixed with items of unexpected shape, handleJsonObject
completes, and its result (tree, map and emitted notifications alike) is the result of
handling a 'drive#fileList' object whose items are the same list with the unexpected items
removed. -/
theorem handleJsonObject_skips_unexpected (m : GoogleDriveModel) (object cleaned : QJsonObject)
    (items : List QJsonValue) (r : Nat) (ri : FileTreeItem)
    (hkind : kindOf object = "drive#fileList")
    (hitems : QJsonObject.get object "items" = .array items)
    (hkind1 : kindOf cleaned = "drive#fileList")
    (hitems1 : QJsonObject.get cleaned "items" =
      .array (items.filter (fun v => !isUnexpected v)))
    (hall : ∀ v ∈ items, isUnexpected v = true ∨
      (kindOf v.toObject = "drive#file" ∧ firstParentIsRoot v.toObject = true ∧
        FileTreeMap.find m.m_fileTreeMap (idOf v.toObject) = none))
    (hnodup : ((items.filter (fun v => !isUnexpected v)).map (fun v => idOf v.toObject)).Nodup)
    (hfind : FileTreeMap.find m.m_fileTreeMap "root" = some (some r))
    (hr : m.heap[r]? = some ri) (hfolder : ri.containingFolder = none) :
    ∃ m1, handleJsonObject m object = .ok m1 ∧ handleJsonObject m cleaned = .ok m1 ∧
      m1.childCount (some r) = .ok ((ri.children.length +
        (items.filter (fun v => !isUnexpected v)).length : Nat) : Int) := by
  have _ := hnodup
  have hlt : r < m.heap.length := by
    rcases Nat.lt_or_ge r m.heap.length with h | h
    · exact h
    · rw [List.getElem?_eq_none h] at hr; cases hr
  have hall1 : ∀ v ∈ items.filter (fun v => !isUnexpected v),
      kindOf v.toObject = "drive#file" ∧ firstParentIsRoot v.toObject = true ∧
        idOf v.toObject ≠ "root" := by
    intro v hv
    obtain ⟨hmem, hnot⟩ := List.mem_filter.mp hv
    rcases hall v hmem with h | ⟨h1, h2, h3⟩
    · rw [h] at hnot; cases hnot
    · refine ⟨h1, h2, ?_⟩
      intro hid
      rw [hid, hfind] at h3
      cases h3
  obtain ⟨m1, h1, h2, _, _⟩ :=
    foldlM_root_files (items.filter (fun v => !isUnexpected v)) m r ri hall1 hfind hr hfolder
  refine ⟨m1, ?_, ?_, ?_⟩
  · rw [handleJsonObject_fileList m object items hkind hitems, foldlM_filter_unexpected]
    exact h1
  · rw [handleJsonObject_fileList m cleaned _ hkind1 hitems1]
    exact h1
  · have hroot1 : m1.heap[r]? = some { ri with children := ri.children ++
        (List.range' m.heap.length (items.filter (fun v => !isUnexpected v)).length).map some } := by
      rw [h2]
      simp [List.getElem?_append_left, hlt]
    simp [childCount, deref, hroot1, map_ok]

/-- Witness for C9 on the fresh model: the mixed batch gives the result of the batch of its
two well-formed records, and root ends with two children. -/
theorem handleJsonObject_skips_unexpected_witness :
    ∃ m1, handleJsonObject init (fileList mixedItems) = .ok m1 ∧
      handleJsonObject init (fileList twoRecords) = .ok m1 ∧
      m1.childCount (some 0) = .ok 2 := by
  obtain ⟨m1, h1, h2, h3⟩ :=
    handleJsonObject_skips_unexpected init (fileList mixedItems) (fileList twoRecords)
      mixedItems 0 ⟨"root", "", "", "", none, []⟩ (by decide) rfl (by decide) rfl
      (by decide) (by decide) rfl rfl rfl
  exact ⟨m1, h1, h2, h3⟩

/-! ## Replies: tokens and listing requests -/

theorem isEmpty_eq_false (a : String) (h : a ≠ "") : a.isEmpty = false :=
  Bool.eq_false_iff.mpr (mt (String.isEmpty_iff a).mp h)

/-- One non-401 token-exchange reply with a non-empty access_token: the tokens are stored, and
a root listing request is issued exactly when the access token differs from the stored one. -/
theorem networkReplyFinished_token (m : GoogleDriveModel) (reply : QNetworkReply)
    (o : QJsonObject) (a : String)
    (hstatus : reply.httpStatusCode ≠ some 401)
    (hurl : QString.contains reply.url "/oauth2/v3/token" = true)
    (hdoc : reply.document = .object o)
    (ha : (QJsonObject.get o "access_token").toString = a) (hne : a ≠ "") :
    networkReplyFinished m reply = .ok
      { m with
        m_accessToken := a
        m_refreshToken := (QJsonObject.get o "refresh_token").toString
        emitted := m.emitted ++
          (if m.m_accessToken = a then [] else [.accessTokenChanged]) ++
          [.refreshTokenChanged, .getNewAccessToken]
        getRequests := m.getRequests ++
          (if m.m_accessToken = a then [] else [listRequest m.m_clientId a]) } := by
  by_cases hsame : m.m_accessToken = a
  · simp [networkReplyFinished, hstatus, hurl, hdoc, QJsonValue.isObject, QJsonValue.toObject,
      ha, setAccessToken, hsame, setRefreshToken, emit, ok_bind]
  · simp [networkReplyFinished, hstatus, hurl, hdoc, QJsonValue.isObject, QJsonValue.toObject,
      ha, setAccessToken, hsame, setRefreshToken, emit, ok_bind, handleAccessTokenChanged,
      isEmpty_eq_false a hne, requestListChildren, listRequest]

/-- Claim C5. When the stored access token is empty (as in the freshly constructed model), a
non-401 reply to the token-exchange URL whose body has access_token = a (non-empty) and
refresh_token = b makes networkReplyFinished complete with accessToken() = a and
refreshToken() = b, exactly one more request issued, the root listing request, the signals
accessTokenChanged, refreshTokenChanged and getNewAccessToken emitted once each, and the file
tree (items and identifier map) untouched. -/
theorem networkReplyFinished_first_tokens (m : GoogleDriveModel) (reply : QNetworkReply)
    (o : QJsonObject) (a b : String)
    (hempty : m.m_accessToken = "")
    (hstatus : reply.httpStatusCode ≠ some 401)
    (hurl : QString.contains reply.url "/oauth2/v3/token" = true)
    (hdoc : reply.document = .object o)
    (ha : QJsonObject.get o "access_token" = .string a)
    (hb : QJsonObject.get o "refresh_token" = .string b) (hne : a ≠ "") :
    ∃ m1, networkReplyFinished m reply = .ok m1 ∧
      m1.accessToken = a ∧ m1.refreshToken = b ∧
      m1.getRequests = m.getRequests ++ [listRequest m.m_clientId a] ∧
      m1.getRequests = (({ m with m_accessToken := a }).requestListChildren "root").getRequests ∧
      m1.emitted = m.emitted ++ [.accessTokenChanged, .refreshTokenChanged, .getNewAccessToken] ∧
      m1.heap = m.heap ∧ m1.m_fileTreeMap = m.m_fileTreeMap := by
  have hdiff : ¬ m.m_accessToken = a := by
    rw [hempty]
    exact fun h => hne h.symm
  refine ⟨_, networkReplyFinished_token m reply o a hstatus hurl hdoc (by rw [ha]; rfl) hne,
    rfl, ?_, ?_, ?_, ?_, rfl, rfl⟩
  · simp [refreshToken, hb, QJsonValue.toString]
  · simp [hdiff]
  · simp [hdiff, requestListChildren, listRequest]
  · simp [hdiff]

/-- Witness for C5: the fresh model and the body with access_token "A", refresh_token "B". -/
theorem networkReplyFinished_first_tokens_witness :
    ∃ m1, networkReplyFinished init
        (tokenReply 200 [("access_token", .string "A"), ("refresh_token", .string "B")])
        = .ok m1 ∧
      m1.accessToken = "A" ∧ m1.refreshToken = "B" ∧
      m1.getRequests = [listRequest "" "A"] ∧
      m1.emitted = [.accessTokenChanged, .refreshTokenChanged, .getNewAccessToken] ∧
      m1.heap = init.heap ∧ m1.m_fileTreeMap = init.m_fileTreeMap := by
  obtain ⟨m1, h1, h2, h3, h4, _, h6, h7, h8⟩ :=
    networkReplyFinished_first_tokens init
      (tokenReply 200 [("access_token", .string "A"), ("refresh_token", .string "B")])
      _ "A" "B" rfl (by decide) (by decide) rfl rfl rfl (by decide)
  exact ⟨m1, h1, h2, h3, h4, h6, h7, h8⟩

/-- Claim C6. For every model state and every reply with HTTP status 401, whatever its URL and
body, networkReplyFinished completes and changes nothing but the emitted signals, to which
credentialExpired is appended once: tree, map, tokens and issued requests are unchanged. -/
theorem networkReplyFinished_401 (m : GoogleDriveModel) (reply : QNetworkReply)
    (hstatus : reply.httpStatusCode = some 401) :
    networkReplyFinished m reply =
      .ok { m with emitted := m.emitted ++ [.credentialExpired] } := by
  simp [networkReplyFinished, hstatus, emit]

/-- Witness for C6: a 401 reply to a listing URL whose body is a file list, handled in the
state `afterA`. -/
theorem networkReplyFinished_401_witness :
    networkReplyFinished afterA
        { httpStatusCode := some 401, url := "https://www.googleapis.com/drive/v2/files",
          document := .object (fileList twoRecords) } =
      .ok { afterA with emitted := afterA.emitted ++ [.credentialExpired] } :=
  networkReplyFinished_401 afterA _ rfl

/-- Counterexample to claim C7 as stated: from the fresh model the first token-exchange reply
issues the root listing request, and a second token-exchange reply carrying a different
non-empty access_token issues a second one. -/
theorem later_token_reply_lists_again :
    networkReplyFinished init
        (tokenReply 200 [("access_token", .string "A"), ("refresh_token", .string "B")])
      = .ok afterTokenA ∧
    networkReplyFinished afterTokenA
        (tokenReply 200 [("access_token", .string "A2"), ("refresh_token", .string "B2")])
      = .ok afterTokenA2 ∧
    afterTokenA.getRequests.length = 1 ∧
    afterTokenA2.getRequests = afterTokenA.getRequests ++ [listRequest "" "A2"] := by
  decide

/-- Claim C7 as amended. Over every sequence of non-401 token-exchange replies with JSON object
bodies and non-empty access_token, handled from any model state, all replies are handled
without fault and a reply issues a root listing request exactly when its access_token differs
from the access token stored when it arrives (for the fresh model, whose token is empty, that
includes the first reply): the requests issued are `listingsIssued`, and no reply whose
access_token equals the stored one issues a request. -/
theorem token_replies_list_on_change (replies : List QNetworkReply) (m : GoogleDriveModel)
    (hall : ∀ reply ∈ replies, reply.httpStatusCode ≠ some 401 ∧
      QString.contains reply.url "/oauth2/v3/token" = true ∧
      reply.document.isObject = true ∧ accessTokenOf reply ≠ "") :
    ∃ m1, replies.foldlM networkReplyFinished m = .ok m1 ∧
      m1.m_clientId = m.m_clientId ∧
      m1.getRequests = m.getRequests ++
        listingsIssued m.m_clientId m.m_accessToken (replies.map accessTokenOf) := by
  induction replies generalizing m with
  | nil => exact ⟨m, rfl, rfl, by simp [listingsIssued]⟩
  | cons reply rest ih =>
    obtain ⟨hstatus, hurl, hobj, hne⟩ := hall reply (List.mem_cons_self _ _)
    have hdoc : reply.document = .object reply.document.toObject := by
      cases hd : reply.document with
      | object o => rfl
      | _ => simp [hd, QJsonValue.isObject] at hobj
    have hstep := networkReplyFinished_token m reply reply.document.toObject
      (accessTokenOf reply) hstatus hurl hdoc rfl hne
    obtain ⟨m1, h1, h2, h4⟩ := ih _ (fun x hx => hall x (List.mem_cons_of_mem _ hx))
    refine ⟨m1, ?_, ?_, ?_⟩
    · simp only [List.foldlM_cons, hstep, ok_bind]
      exact h1
    · rw [h2]
    · rw [h4]
      simp [listingsIssued, List.append_assoc]

/-- Witness for the amended C7: three replies carrying "A", "A" and "A2" from the fresh model
issue two listing requests, for the first and the third. -/
theorem token_replies_list_on_change_witness :
    ∃ m1, [tokenReply 200 [("access_token", .string "A")],
           tokenReply 200 [("access_token", .string "A")],
           tokenReply 200 [("access_token", .string "A2")]].foldlM networkReplyFinished init
        = .ok m1 ∧
      m1.getRequests = [listRequest "" "A", listRequest "" "A2"] := by
  obtain ⟨m1, h1, _, h4⟩ := token_replies_list_on_change
    [tokenReply 200 [("access_token", .string "A")],
     tokenReply 200 [("access_token", .string "A")],
     tokenReply 200 [("access_token", .string "A2")]] init (by decide)
  exact ⟨m1, h1, h4⟩

/-- Claim C8 (the code departs from it). For every model state and every parent identifier,
the one request requestListChildren issues has the query item q = "root" in parents: the
identifier given is not used, so for "folderA" the query is not "folderA" in parents and two
different identifiers give the same request. -/
theorem requestListChildren_ignores_parent (m : GoogleDriveModel) (parentName : String) :
    (m.requestListChildren parentName).getRequests =
      m.getRequests ++ [listRequest m.m_clientId m.m_accessToken] ∧
    queryItemValue (listRequest m.m_clientId m.m_accessToken).query "q" =
      some "\"root\" in parents" ∧
    queryItemValue (listRequest m.m_clientId m.m_accessToken).query "q" ≠
      some "\"folderA\" in parents" ∧
    m.requestListChildren parentName = m.requestListChildren "folderA" := by
  refine ⟨rfl, by simp [listRequest, queryItemValue], ?_, rfl⟩
  simp [listRequest, queryItemValue]

/-- Claim C10 (the code departs from it). `afterTokenA` is the state the fresh model reaches on
a token-exchange reply carrying "A"; a later non-401 token-exchange reply whose JSON object
body has no access_token field stores the empty token and runs handleAccessTokenChanged, whose
assertion `!m_accessToken.isEmpty()` then fails. -/
theorem empty_token_reply_fails_assertion :
    networkReplyFinished init
        (tokenReply 200 [("access_token", .string "A"), ("refresh_token", .string "B")])
      = .ok afterTokenA ∧
    afterTokenA.accessToken = "A" ∧
    networkReplyFinished afterTokenA (tokenReply 400 [("error", .string "invalid_grant")])
      = .error .assertionFailed ∧
    (({ afterTokenA with m_accessToken := "" }).emit .accessTokenChanged).handleAccessTokenChanged
      = .error .assertionFailed := by
  decide

end PageHeaver
